import Mathlib

/-!
# Vidio: image adapter and video frame pipe writer

A shallow embedding of `videowriter.go` and `imageio.go`.

Conventions of the embedding:

* a Go `panic` is the `error` branch of `Except Panic`;
* Go `int` values are `Int`, without wrap-around at 64 bits.  The `int`
  arithmetic of the two files is loop counters and slice indices below the
  length of a slice held in memory, the byte count of a decoded image (the
  PNG and JPEG decoders reject dimensions whose pixel count overflows) and
  the running total of the byte counts returned by the pipe;
* strings are sequences of characters, so `strings.HasSuffix` compares
  characters where Go compares bytes; the two agree on valid UTF-8;
* a `byte` is `Fin 256`, and `byte(x)` is reduction modulo 256;
* a `float64` is its IEEE-754 binary64 fields (sign, exponent, mantissa);
* the operating system (subprocess, pipe, file system, image codecs) is a
  parameter: a record of functions whose results the program only consumes.
-/

namespace Vidio

/-- Go `byte` (`uint8`). -/
abbrev Byte := Fin 256

/-- Value carried by a Go `panic`. -/
abbrev Panic := String

/-- IEEE-754 binary64, the representation of Go `float64`. -/
structure Float64 where
  sign : Bool
  exponent : Fin 2048
  mantissa : Fin 4503599627370496
deriving DecidableEq

/-- Go `x == 0` on `float64`: true exactly for `+0` and `-0`. -/
def Float64.isZero (x : Float64) : Bool :=
  decide (x.exponent = 0) && decide (x.mantissa = 0)

/-- The constant `25` converted to `float64`: `1.1001b * 2^4`. -/
def Float64.c25 : Float64 :=
  { sign := false, exponent := 1027, mantissa := 2533274790395904 }

/-- Modelled from the spec: the declaration of `Video` is not part of the
given sources.  These are the fields `NewVideoWriter` reads and writes; their
types are forced by the assignments into `VideoWriter`. -/
structure Video where
  width : Int
  height : Int
  channels : Int
  bitrate : Int
  fps : Float64
  codec : String
  pix_fmt : String
deriving DecidableEq

/-- Go `exec.Cmd`, reduced to the program name and its argument vector
(`Args[0]` is the program name, as `exec.Command` builds it). -/
structure Cmd where
  Path : String
  Args : List String
deriving DecidableEq

/-- Go `exec.Command(name, arg...)`. -/
def exec.Command (name : String) (arg : List String) : Cmd :=
  { Path := name, Args := name :: arg }

/-- The value behind `*io.WriteCloser`: the standard-input pipe of the
subprocess, identified by the number of pipes opened before it. -/
structure PipeHandle where
  id : Nat
deriving DecidableEq

/-- Go `VideoWriter`. -/
structure VideoWriter where
  filename : String
  width : Int
  height : Int
  channels : Int
  bitrate : Int
  fps : Float64
  codec : String
  pix_fmt : String
  pipe : Option PipeHandle
  cmd : Option Cmd
deriving DecidableEq

/-- Go `NewVideoWriter`.  The defaults are stored into the caller's `Video`
(second component) before the writer is built from it. -/
def NewVideoWriter (filename : String) (video : Video) : Except Panic (VideoWriter × Video) :=
  if video.width = 0 ∨ video.height = 0 then
    .error "Video width and height must be set."
  else
    let video := if video.channels = 0 then { video with channels := 3 } else video
    let video := if video.fps.isZero then { video with fps := Float64.c25 } else video
    let video := if video.codec = "" then { video with codec := "mpeg4" } else video
    let video := if video.pix_fmt = "" then { video with pix_fmt := "rgb24" } else video
    .ok ({ filename := filename
           width := video.width
           height := video.height
           channels := video.channels
           bitrate := video.bitrate
           fps := video.fps
           codec := video.codec
           pix_fmt := video.pix_fmt
           pipe := none
           cmd := none }, video)

/-- An externally visible action of the video writer, in program order. -/
inductive Event where
  | signalNotify
  | stdinPipe (cmd : Cmd)
  | start (cmd : Cmd)
  | pipeWrite (h : PipeHandle) (offered : List Byte) (n : Int)
  | pipeClose (h : PipeHandle)
  | wait (cmd : Cmd)
deriving DecidableEq

/-- The operating system as the writer sees it, over a state `σ` of its
own: each call returns what Go returns (an optional `error`, a byte count)
and the next state.  `Sprintf` is the formatting of `"%f"`. -/
structure Env (σ : Type) where
  StdinPipe : σ → Cmd → Option Panic × σ
  Start : σ → Cmd → Option Panic × σ
  pipeWrite : σ → PipeHandle → List Byte → (Int × Option Panic) × σ
  pipeClose : σ → PipeHandle → σ
  Wait : σ → Cmd → σ
  Sprintf : Float64 → String

/-- State outside the writer: the operating system and the trace of actions. -/
structure World (σ : Type) where
  os : σ
  log : List Event

/-- Record one action. -/
def World.emit {σ : Type} (world : World σ) (os : σ) (e : Event) : World σ :=
  { os := os, log := world.log ++ [e] }

/-- Go `fmt.Sprintf("%dx%d", width, height)`. -/
def sizeArg (width height : Int) : String :=
  toString width ++ "x" ++ toString height

/-- The command built by `initVideoWriter` (the `exec.Command` call). -/
def VideoWriter.command {σ : Type} (env : Env σ) (writer : VideoWriter) : Cmd :=
  exec.Command "ffmpeg"
    [ "-y",
      "-f", "rawvideo",
      "-vcodec", "rawvideo",
      "-s", sizeArg writer.width writer.height,
      "-pix_fmt", writer.pix_fmt,
      "-r", env.Sprintf writer.fps,
      "-i", "-",
      "-an",
      "-vcodec", writer.codec,
      writer.filename ]

/-- Go `VideoWriter.cleanup`: registers the signal channel and starts the
listener goroutine.  Only the registration is sequential behaviour. -/
def VideoWriter.cleanup {σ : Type} (_writer : VideoWriter) (world : World σ) : World σ :=
  world.emit world.os .signalNotify

/-- Number of pipes opened so far. -/
def pipesOpened (log : List Event) : Nat :=
  log.countP (fun e => match e with | .stdinPipe _ => true | _ => false)

/-- Go `VideoWriter.initVideoWriter`. -/
def VideoWriter.initVideoWriter {σ : Type} (env : Env σ) (writer : VideoWriter)
    (world : World σ) : Except Panic (VideoWriter × World σ) :=
  let world := writer.cleanup world
  let cmd := writer.command env
  let writer := { writer with cmd := some cmd }
  let pipe : PipeHandle := { id := pipesOpened world.log }
  match env.StdinPipe world.os cmd with
  | (some err, _) => .error err
  | (none, os) =>
    let world := world.emit os (.stdinPipe cmd)
    let writer := { writer with pipe := some pipe }
    match env.Start world.os cmd with
    | (some err, _) => .error err
    | (none, os) => .ok (writer, world.emit os (.start cmd))

/-- The loop of `VideoWriter.Write`, one iteration per unit of fuel; `none`
when the fuel runs out before the loop ends.  A failed pipe write prints the
diagnostic hint and panics with the error. -/
def VideoWriter.writeLoop {σ : Type} (env : Env σ) (pipe : Option PipeHandle)
    (frame : List Byte) : Nat → Int → World σ → Option (Except Panic (World σ))
  | fuel, total, world =>
    if total < (frame.length : Int) then
      match fuel with
      | 0 => none
      | fuel + 1 =>
        match pipe with
        | none => some (.error "invalid memory address or nil pointer dereference")
        | some h =>
          if total < 0 then
            some (.error "slice bounds out of range")
          else
            let offered := frame.drop total.toNat
            match env.pipeWrite world.os h offered with
            | ((_, some err), _) => some (.error err)
            | ((n, none), os) =>
              VideoWriter.writeLoop env pipe frame fuel (total + n)
                (world.emit os (.pipeWrite h offered n))
    else
      some (.ok world)

/-- Go `VideoWriter.Write`. -/
def VideoWriter.Write {σ : Type} (env : Env σ) (fuel : Nat) (writer : VideoWriter)
    (world : World σ) (frame : List Byte) : Option (Except Panic (VideoWriter × World σ)) :=
  let started : Except Panic (VideoWriter × World σ) :=
    if writer.cmd = none then writer.initVideoWriter env world else .ok (writer, world)
  match started with
  | .error e => some (.error e)
  | .ok (writer, world) =>
    match VideoWriter.writeLoop env writer.pipe frame fuel 0 world with
    | none => none
    | some (.error e) => some (.error e)
    | some (.ok world) => some (.ok (writer, world))

/-- Go `VideoWriter.Close`. -/
def VideoWriter.Close {σ : Type} (env : Env σ) (writer : VideoWriter)
    (world : World σ) : VideoWriter × World σ :=
  let world :=
    match writer.pipe with
    | some h => world.emit (env.pipeClose world.os h) (.pipeClose h)
    | none => world
  let world :=
    match writer.cmd with
    | some cmd => world.emit (env.Wait world.os cmd) (.wait cmd)
    | none => world
  (writer, world)

/-- Bytes the pipe accepted, in call order: the first `n` bytes of each
offered slice. -/
def accepted : List Event → List Byte
  | [] => []
  | .pipeWrite _ offered n :: rest => offered.take n.toNat ++ accepted rest
  | _ :: rest => accepted rest

/-- Number of subprocess launches in a trace. -/
def launches (log : List Event) : Nat :=
  log.countP (fun e => match e with | .start _ => true | _ => false)

/-- One call made by the user of a writer. -/
inductive Call where
  | write (frame : List Byte)
  | close
deriving DecidableEq

/-- Whether the call is a `Write`. -/
def Call.isWrite : Call → Bool
  | .write _ => true
  | .close => false

/-- A sequence of `Write` and `Close` calls on one writer, stopping at the
first panic. -/
def VideoWriter.run {σ : Type} (env : Env σ) (fuel : Nat) :
    List Call → VideoWriter → World σ → Option (Except Panic (VideoWriter × World σ))
  | [], writer, world => some (.ok (writer, world))
  | .write frame :: rest, writer, world =>
    match writer.Write env fuel world frame with
    | some (.ok (writer, world)) => VideoWriter.run env fuel rest writer world
    | other => other
  | .close :: rest, writer, world =>
    VideoWriter.run env fuel rest (writer.Close env world).1 (writer.Close env world).2

/-- Go `byte(x)` for an unsigned `x`: the low eight bits. -/
def byte (x : Nat) : Byte :=
  ⟨x % 256, Nat.mod_lt x (by decide)⟩

/-- Go `image.Rectangle` (`Min` and `Max` points). -/
structure image.Rectangle where
  MinX : Int
  MinY : Int
  MaxX : Int
  MaxY : Int
deriving DecidableEq

/-- Go `image.Rect`: the rectangle with the coordinates put in order. -/
def image.Rect (x0 y0 x1 y1 : Int) : image.Rectangle :=
  { MinX := if x0 > x1 then x1 else x0
    MinY := if y0 > y1 then y1 else y0
    MaxX := if x0 > x1 then x0 else x1
    MaxY := if y0 > y1 then y0 else y1 }

/-- Go `Point.In`: whether `(x, y)` lies in the rectangle. -/
def image.Rectangle.contains (r : image.Rectangle) (x y : Int) : Bool :=
  decide (r.MinX ≤ x) && decide (x < r.MaxX) && decide (r.MinY ≤ y) && decide (y < r.MaxY)

/-- What the method `RGBA()` of a Go `color.Color` returns: four `uint32`
channel values, each in `[0, 0xffff]` for a valid colour. -/
structure color.Color where
  r : Nat
  g : Nat
  b : Nat
  a : Nat
deriving DecidableEq

/-- Go `color.RGBA`: 8 bits per channel. -/
structure color.RGBA where
  R : Byte
  G : Byte
  B : Byte
  A : Byte
deriving DecidableEq

set_option linter.dupNamespace false in
/-- Go `color.RGBA.RGBA()`: each channel `c` becomes `c | c << 8`. -/
def color.RGBA.RGBA (c : color.RGBA) : color.Color :=
  { r := c.R.val ||| (c.R.val <<< 8)
    g := c.G.val ||| (c.G.val <<< 8)
    b := c.B.val ||| (c.B.val <<< 8)
    a := c.A.val ||| (c.A.val <<< 8) }

/-- Go `image.Image`, the interface `Read` consumes: bounds and `At`. -/
structure image.Image where
  Bounds : image.Rectangle
  At : Int → Int → color.Color

/-- Go `*image.RGBA`.  The pixel buffer (`Pix`, `Stride`) is represented by
the pixel it holds at each coordinate. -/
structure image.RGBA where
  Rect : image.Rectangle
  pix : Int → Int → color.RGBA

/-- Go `image.NewRGBA`: all pixels zero. -/
def image.NewRGBA (r : image.Rectangle) : image.RGBA :=
  { Rect := r, pix := fun _ _ => { R := 0, G := 0, B := 0, A := 0 } }

/-- Go `(*image.RGBA).Set` with a `color.RGBA` argument: stores the pixel if
the point is inside the rectangle, does nothing otherwise. -/
def image.RGBA.Set (p : image.RGBA) (x y : Int) (c : color.RGBA) : image.RGBA :=
  if p.Rect.contains x y then
    { p with pix := fun x' y' => if x' = x ∧ y' = y then c else p.pix x' y' }
  else p

/-- Go `(*image.RGBA).RGBAAt`: the zero colour outside the rectangle. -/
def image.RGBA.RGBAAt (p : image.RGBA) (x y : Int) : color.RGBA :=
  if p.Rect.contains x y then p.pix x y else { R := 0, G := 0, B := 0, A := 0 }

/-- An `*image.RGBA` seen through the `image.Image` interface. -/
def image.RGBA.toImage (p : image.RGBA) : image.Image :=
  { Bounds := p.Rect, At := fun x y => (p.RGBAAt x y).RGBA }

/-- Go `strings.HasSuffix`. -/
def strings.HasSuffix (s suffix : String) : Bool :=
  decide (suffix.length ≤ s.length) &&
    (s.data.drop (s.length - suffix.length) == suffix.data)

/-- Files by name; `none` where there is no file. -/
abbrev FileSystem := String → Option (List Byte)

/-- The standard library as the image adapter sees it: whether `os.Create`
fails, the two encoders (the second argument of `jpegEncode` is the quality
of `*jpeg.Options`, `none` for a nil pointer) and `image.Decode`. -/
structure Codecs where
  Create : FileSystem → String → Option Panic
  pngEncode : image.RGBA → Except Panic (List Byte)
  jpegEncode : image.RGBA → Option Nat → Except Panic (List Byte)
  Decode : List Byte → Except Panic image.Image

/-- Go `os.Open` followed by reading the file: fails when there is no file. -/
def os.Open (fs : FileSystem) (filename : String) : Except Panic (List Byte) :=
  match fs filename with
  | none => .error "open: no such file or directory"
  | some bytes => .ok bytes

/-- Go `for i := 0; i < n; i++ { body }` over a state, stopping at a panic:
`forLoop body n 0 s`. -/
def forLoop {α : Type} (body : Nat → α → Except Panic α) : Nat → Nat → α → Except Panic α
  | 0, _, s => .ok s
  | k + 1, i, s =>
    match body i s with
    | .error e => .error e
    | .ok s' => forLoop body k (i + 1) s'

/-- Go `data[index] = v`: panics when the index is out of range. -/
def setByte (data : List Byte) (index : Nat) (v : Byte) : Except Panic (List Byte) :=
  if index < data.length then .ok (data.set index v) else .error "index out of range"

/-- Body of the inner loop of `Read` on the state `(data, index)`. -/
def Read.pixel (image : image.Image) (h w : Nat) (st : List Byte × Nat) :
    Except Panic (List Byte × Nat) :=
  let c := image.At w h
  let r := c.r / 256
  let g := c.g / 256
  let b := c.b / 256
  match setByte st.1 st.2 (byte r) with
  | .error e => .error e
  | .ok data =>
    match setByte data (st.2 + 1) (byte g) with
    | .error e => .error e
    | .ok data =>
      match setByte data (st.2 + 2) (byte b) with
      | .error e => .error e
      | .ok data => .ok (data, st.2 + 3)

/-- The part of `Read` after decoding: allocation and the two loops. -/
def Read.flatten (image : image.Image) : Except Panic (Int × Int × List Byte) :=
  let boundsX := image.Bounds.MaxX
  let boundsY := image.Bounds.MaxY
  if boundsY * boundsX * 3 < 0 then
    .error "makeslice: len out of range"
  else
    let data : List Byte := List.replicate (boundsY * boundsX * 3).toNat 0
    match forLoop (fun h st => forLoop (fun w st => Read.pixel image h w st) boundsX.toNat 0 st)
        boundsY.toNat 0 (data, 0) with
    | .error e => .error e
    | .ok (data, _) => .ok (boundsX, boundsY, data)

/-- Go `Read` (imageio.go). -/
def Read (env : Codecs) (fs : FileSystem) (filename : String) :
    Except Panic (Int × Int × List Byte) :=
  match os.Open fs filename with
  | .error e => .error e
  | .ok f =>
    match env.Decode f with
    | .error e => .error e
    | .ok image => Read.flatten image

/-- Body of the inner loop of `Write` on the state `(image, index)`. -/
def Write.pixel (data : List Byte) (h w : Nat) (st : image.RGBA × Nat) :
    Except Panic (image.RGBA × Nat) :=
  match data[st.2]?, data[st.2 + 1]?, data[st.2 + 2]? with
  | some r, some g, some b =>
    .ok (st.1.Set w h { R := r, G := g, B := b, A := 255 }, st.2 + 3)
  | _, _, _ => .error "index out of range"

/-- The part of `Write` that builds the in-memory image. -/
def Write.build (width height : Int) (data : List Byte) : Except Panic image.RGBA :=
  let image := image.NewRGBA (image.Rect 0 0 width height)
  match forLoop (fun h st => forLoop (fun w st => Write.pixel data h w st) width.toNat 0 st)
      height.toNat 0 (image, 0) with
  | .error e => .error e
  | .ok (image, _) => .ok image

/-- Go `Write` (imageio.go): the file system after the call. -/
def Write (env : Codecs) (fs : FileSystem) (filename : String) (width height : Int)
    (data : List Byte) : Except Panic FileSystem :=
  match env.Create fs filename with
  | some err => .error err
  | none =>
    let fs := Function.update fs filename (some [])
    match Write.build width height data with
    | .error e => .error e
    | .ok image =>
      if strings.HasSuffix filename ".png" then
        match env.pngEncode image with
        | .error e => .error e
        | .ok bytes => .ok (Function.update fs filename (some bytes))
      else if strings.HasSuffix filename ".jpg" || strings.HasSuffix filename ".jpeg" then
        match env.jpegEncode image none with
        | .error e => .error e
        | .ok bytes => .ok (Function.update fs filename (some bytes))
      else
        .ok fs

/-- Loop invariant of `Read` after `k` pixels: the index is `3 * k`, the
buffer keeps its length `3 * N`, and the first `k` pixels, in row-major
order over rows of `W` pixels, hold their converted R, G, B channels. -/
def Read.filled (image : image.Image) (W N k : Nat) (st : List Byte × Nat) : Prop :=
  st.2 = 3 * k ∧ st.1.length = 3 * N ∧
    ∀ j, j < k →
      st.1[3 * j]? = some (byte ((image.At ((j % W : Nat) : Int) ((j / W : Nat) : Int)).r / 256)) ∧
      st.1[3 * j + 1]? = some (byte ((image.At ((j % W : Nat) : Int) ((j / W : Nat) : Int)).g / 256)) ∧
      st.1[3 * j + 2]? = some (byte ((image.At ((j % W : Nat) : Int) ((j / W : Nat) : Int)).b / 256))

/-- Loop invariant of `Write` after `k` pixels: the index is `3 * k`, the
rectangle is unchanged, and the first `k` pixels, in row-major order over
rows of `W` pixels, hold the corresponding three bytes of `data` with alpha
255. -/
def Write.filled (data : List Byte) (W : Nat) (r : image.Rectangle) (k : Nat)
    (st : image.RGBA × Nat) : Prop :=
  st.2 = 3 * k ∧ st.1.Rect = r ∧
    ∀ j, j < k →
      data[3 * j]? = some (st.1.pix ((j % W : Nat) : Int) ((j / W : Nat) : Int)).R ∧
      data[3 * j + 1]? = some (st.1.pix ((j % W : Nat) : Int) ((j / W : Nat) : Int)).G ∧
      data[3 * j + 2]? = some (st.1.pix ((j % W : Nat) : Int) ((j / W : Nat) : Int)).B ∧
      (st.1.pix ((j % W : Nat) : Int) ((j / W : Nat) : Int)).A = 255

/-- A configuration with every optional field unset. -/
def demoVideo : Video :=
  { width := 640, height := 480, channels := 0, bitrate := 0,
    fps := { sign := false, exponent := 0, mantissa := 0 }, codec := "", pix_fmt := "" }

/-- An operating system whose pipe accepts at most two bytes per call and
whose state counts the calls made to it. -/
def demoEnv : Env Nat :=
  { StdinPipe := fun s _ => (none, s + 1)
    Start := fun s _ => (none, s + 1)
    pipeWrite := fun s _ offered => ((min 2 offered.length, none), s + 1)
    pipeClose := fun s _ => s + 1
    Wait := fun s _ => s + 1
    Sprintf := fun x => if x = Float64.c25 then "25.000000" else "?" }

/-- The writer `NewVideoWriter` builds from `demoVideo`. -/
def demoWriter : VideoWriter :=
  { filename := "out.mp4", width := 640, height := 480, channels := 3, bitrate := 0,
    fps := Float64.c25, codec := "mpeg4", pix_fmt := "rgb24", pipe := none, cmd := none }

/-- A fresh world for `demoEnv`. -/
def demoWorld : World Nat := { os := 0, log := [] }

/-- A session: a `Close` before anything, two frames, a final `Close`. -/
def demoCalls : List Call :=
  [.close, .write [1, 2, 3], .write [4, 5], .close]

/-- The writer after `demoCalls`. -/
def demoWriterRunning : VideoWriter :=
  { demoWriter with cmd := some (demoWriter.command demoEnv), pipe := some { id := 0 } }

/-- The world right after the launch, started from `demoWorld`. -/
def demoWorldLaunched : World Nat :=
  { os := 2
    log := [ .signalNotify,
             .stdinPipe (demoWriter.command demoEnv),
             .start (demoWriter.command demoEnv) ] }

/-- The world after `demoCalls`, started from `demoWorld`. -/
def demoWorldClosed : World Nat :=
  { os := 7
    log := [ .signalNotify,
             .stdinPipe (demoWriter.command demoEnv),
             .start (demoWriter.command demoEnv),
             .pipeWrite { id := 0 } [1, 2, 3] 2,
             .pipeWrite { id := 0 } [3] 1,
             .pipeWrite { id := 0 } [4, 5] 2,
             .pipeClose { id := 0 },
             .wait (demoWriter.command demoEnv) ] }

/-- A 2 by 1 image buffer: one orange-ish pixel, one dark pixel. -/
def demoData : List Byte := [255, 0, 128, 1, 2, 3]

/-- Codecs for the 2 by 1 round trip: the encoders write a signature, and the
decoder maps the PNG signature to the image built from `demoData` and
rejects everything else, the empty file included. -/
def demoCodecs : Codecs :=
  { Create := fun _ _ => none
    pngEncode := fun _ => .ok [137, 80, 78, 71]
    jpegEncode := fun _ _ => .ok [255, 216]
    Decode := fun bytes =>
      if bytes = [137, 80, 78, 71] then
        match Write.build 2 1 demoData with
        | .ok img => .ok img.toImage
        | .error e => .error e
      else .error "image: unknown format" }

/-- An empty file system. -/
def demoFiles : FileSystem := fun _ => none

/-- A decoded 2 by 1 image with 16-bit channel values. -/
def demoImage : image.Image :=
  { Bounds := { MinX := 0, MinY := 0, MaxX := 2, MaxY := 1 }
    At := fun x _ =>
      if x = 0 then { r := 65535, g := 32768, b := 258, a := 65535 }
      else { r := 255, g := 256, b := 4660, a := 65535 } }

/-- Codecs whose decoder returns `demoImage`. -/
def demoDecoder : Codecs :=
  { Create := fun _ _ => none
    pngEncode := fun _ => .error "unused"
    jpegEncode := fun _ _ => .error "unused"
    Decode := fun _ => .ok demoImage }

/-- A file system with one file. -/
def demoDisk : FileSystem := fun name => if name = "in.jpg" then some [255, 216] else none

/-- C4: for non-zero width and height, `NewVideoWriter` returns a writer whose
optional fields take their defaults when zero or empty and keep their value
otherwise, whose filename, width, height and bitrate are copied, and whose
pipe and cmd are nil. -/
theorem NewVideoWriter_defaults (filename : String) (video : Video)
    (hw : video.width ≠ 0) (hh : video.height ≠ 0) :
    ∃ writer video', NewVideoWriter filename video = .ok (writer, video') ∧
      (video.channels = 0 → writer.channels = 3) ∧
      (video.channels ≠ 0 → writer.channels = video.channels) ∧
      (video.fps.isZero = true → writer.fps = Float64.c25) ∧
      (video.fps.isZero = false → writer.fps = video.fps) ∧
      (video.codec = "" → writer.codec = "mpeg4") ∧
      (video.codec ≠ "" → writer.codec = video.codec) ∧
      (video.pix_fmt = "" → writer.pix_fmt = "rgb24") ∧
      (video.pix_fmt ≠ "" → writer.pix_fmt = video.pix_fmt) ∧
      writer.filename = filename ∧ writer.width = video.width ∧
      writer.height = video.height ∧ writer.bitrate = video.bitrate ∧
      writer.pipe = none ∧ writer.cmd = none := by
  unfold NewVideoWriter
  rw [if_neg (by simp [hw, hh])]
  refine ⟨_, _, rfl, ?_⟩
  by_cases hc : video.channels = 0 <;> by_cases hf : video.fps.isZero = true <;>
    by_cases hk : video.codec = "" <;> by_cases hp : video.pix_fmt = "" <;>
    simp [hc, hf, hk, hp]

/-- Witness of C4 at a configuration with every optional field unset. -/
theorem NewVideoWriter_defaults_witness :
    ∃ writer video', NewVideoWriter "out.mp4" demoVideo = .ok (writer, video') ∧
      (demoVideo.channels = 0 → writer.channels = 3) ∧
      (demoVideo.channels ≠ 0 → writer.channels = demoVideo.channels) ∧
      (demoVideo.fps.isZero = true → writer.fps = Float64.c25) ∧
      (demoVideo.fps.isZero = false → writer.fps = demoVideo.fps) ∧
      (demoVideo.codec = "" → writer.codec = "mpeg4") ∧
      (demoVideo.codec ≠ "" → writer.codec = demoVideo.codec) ∧
      (demoVideo.pix_fmt = "" → writer.pix_fmt = "rgb24") ∧
      (demoVideo.pix_fmt ≠ "" → writer.pix_fmt = demoVideo.pix_fmt) ∧
      writer.filename = "out.mp4" ∧ writer.width = demoVideo.width ∧
      writer.height = demoVideo.height ∧ writer.bitrate = demoVideo.bitrate ∧
      writer.pipe = none ∧ writer.cmd = none :=
  NewVideoWriter_defaults "out.mp4" demoVideo (by decide) (by decide)

/-- C5: `NewVideoWriter` panics exactly when width or height is zero, and
returns a writer exactly in every other case, whatever the other fields. -/
theorem NewVideoWriter_panics_iff (filename : String) (video : Video) :
    ((∃ e, NewVideoWriter filename video = .error e) ↔
        (video.width = 0 ∨ video.height = 0)) ∧
      ((∃ r, NewVideoWriter filename video = .ok r) ↔
        ¬ (video.width = 0 ∨ video.height = 0)) := by
  unfold NewVideoWriter
  by_cases h : video.width = 0 ∨ video.height = 0
  · rw [if_pos h]
    simp [h]
  · rw [if_neg h]
    simp [h]

/-- C6: when `initVideoWriter` returns, the trace has grown by the signal
registration, the opening of the pipe and one launch, and the launched
command is `ffmpeg` with exactly the 17 arguments of the invocation contract,
built from width, height, pix_fmt, fps, codec and filename only. -/
theorem initVideoWriter_args {σ : Type} (env : Env σ) (writer writer' : VideoWriter)
    (world world' : World σ)
    (h : writer.initVideoWriter env world = .ok (writer', world')) :
    ∃ args : List String,
      args = [ "-y", "-f", "rawvideo", "-vcodec", "rawvideo",
               "-s", toString writer.width ++ "x" ++ toString writer.height,
               "-pix_fmt", writer.pix_fmt,
               "-r", env.Sprintf writer.fps,
               "-i", "-", "-an", "-vcodec", writer.codec, writer.filename ] ∧
      args.length = 17 ∧
      writer'.cmd = some { Path := "ffmpeg", Args := "ffmpeg" :: args } ∧
      world'.log = world.log ++
        [ .signalNotify,
          .stdinPipe { Path := "ffmpeg", Args := "ffmpeg" :: args },
          .start { Path := "ffmpeg", Args := "ffmpeg" :: args } ] ∧
      ∀ (channels bitrate : Int) (pipe : Option PipeHandle) (cmd : Option Cmd),
        VideoWriter.command env
          { writer with channels := channels, bitrate := bitrate, pipe := pipe, cmd := cmd }
          = { Path := "ffmpeg", Args := "ffmpeg" :: args } := by
  refine ⟨_, rfl, rfl, ?_, ?_, ?_⟩
  · unfold VideoWriter.initVideoWriter at h
    simp only [] at h
    split at h
    · exact absurd h (by simp)
    · split at h
      · exact absurd h (by simp)
      · simp only [Except.ok.injEq, Prod.mk.injEq] at h
        rw [← h.1]
        rfl
  · unfold VideoWriter.initVideoWriter at h
    simp only [] at h
    split at h
    · exact absurd h (by simp)
    · split at h
      · exact absurd h (by simp)
      · simp only [Except.ok.injEq, Prod.mk.injEq] at h
        rw [← h.2]
        simp [World.emit, VideoWriter.cleanup, VideoWriter.command, exec.Command, sizeArg]
  · intro channels bitrate pipe cmd
    rfl

/-- Witness of C6: the launch of the default 640x480 writer at 25 frames
per second. -/
theorem initVideoWriter_args_witness :
    ∃ args : List String,
      args = [ "-y", "-f", "rawvideo", "-vcodec", "rawvideo",
               "-s", "640x480",
               "-pix_fmt", "rgb24",
               "-r", "25.000000",
               "-i", "-", "-an", "-vcodec", "mpeg4", "out.mp4" ] ∧
      args.length = 17 ∧
      demoWriterRunning.cmd = some { Path := "ffmpeg", Args := "ffmpeg" :: args } ∧
      demoWorldLaunched.log = demoWorld.log ++
        [ .signalNotify,
          .stdinPipe { Path := "ffmpeg", Args := "ffmpeg" :: args },
          .start { Path := "ffmpeg", Args := "ffmpeg" :: args } ] ∧
      ∀ (channels bitrate : Int) (pipe : Option PipeHandle) (cmd : Option Cmd),
        VideoWriter.command demoEnv
          { demoWriter with channels := channels, bitrate := bitrate, pipe := pipe, cmd := cmd }
          = { Path := "ffmpeg", Args := "ffmpeg" :: args } :=
  initVideoWriter_args demoEnv demoWriter demoWriterRunning demoWorld demoWorldLaunched rfl

/-- C8: on a writer returned by `NewVideoWriter`, `Close` returns the writer
and the world unchanged: nothing is closed, nothing is waited for, and pipe
and cmd are still nil. -/
theorem Close_before_Write_noop {σ : Type} (env : Env σ) (filename : String) (video video' : Video)
    (writer : VideoWriter) (world : World σ)
    (h : NewVideoWriter filename video = .ok (writer, video')) :
    writer.Close env world = (writer, world) ∧
      (writer.Close env world).1.pipe = none ∧ (writer.Close env world).1.cmd = none ∧
      (writer.Close env world).2.log = world.log := by
  have hw : writer.pipe = none ∧ writer.cmd = none := by
    unfold NewVideoWriter at h
    split at h
    · exact absurd h (by simp)
    · simp only [Except.ok.injEq, Prod.mk.injEq] at h
      rw [← h.1]
      exact ⟨rfl, rfl⟩
  have hc : writer.Close env world = (writer, world) := by
    unfold VideoWriter.Close
    rw [hw.1, hw.2]
  rw [hc]
  exact ⟨rfl, hw.1, hw.2, rfl⟩

/-- Witness of C8 at the default 640x480 writer. -/
theorem Close_before_Write_noop_witness :
    demoWriter.Close demoEnv demoWorld = (demoWriter, demoWorld) ∧
      (demoWriter.Close demoEnv demoWorld).1.pipe = none ∧
      (demoWriter.Close demoEnv demoWorld).1.cmd = none ∧
      (demoWriter.Close demoEnv demoWorld).2.log = demoWorld.log :=
  Close_before_Write_noop demoEnv "out.mp4" demoVideo
    { demoVideo with channels := 3, fps := Float64.c25, codec := "mpeg4", pix_fmt := "rgb24" }
    demoWriter demoWorld rfl

/-- Events other than pipe writes carry no accepted bytes. -/
theorem accepted_append (xs ys : List Event) :
    accepted (xs ++ ys) = accepted xs ++ accepted ys := by
  induction xs with
  | nil => rfl
  | cons e rest ih =>
    cases e <;> simp [accepted, ih]

/-- The write loop against a pipe that accepts between one byte and all
offered bytes without error: with fuel for the remaining bytes it ends
normally, having appended to the trace pipe writes whose accepted bytes are
the remainder of the frame; the result does not depend on the fuel. -/
theorem writeLoop_transmits {σ : Type} (env : Env σ) (h : PipeHandle) (frame : List Byte)
    (hpipe : ∀ (s : σ) (p : PipeHandle) (offered : List Byte), offered ≠ [] →
      (env.pipeWrite s p offered).1.2 = none ∧
      1 ≤ (env.pipeWrite s p offered).1.1 ∧
      (env.pipeWrite s p offered).1.1 ≤ (offered.length : Int)) :
    ∀ (m total : Nat) (world : World σ), total ≤ frame.length →
      frame.length - total ≤ m →
      ∃ (os : σ) (evs : List Event),
        (∀ fuel, frame.length - total ≤ fuel →
          VideoWriter.writeLoop env (some h) frame fuel (total : Int) world
            = some (.ok { os := os, log := world.log ++ evs })) ∧
        accepted evs = frame.drop total ∧ launches evs = 0 := by
  intro m
  induction m with
  | zero =>
    intro total world hle hm
    have ht : total = frame.length := by omega
    refine ⟨world.os, [], ?_, ?_, rfl⟩
    · intro fuel _
      unfold VideoWriter.writeLoop
      rw [if_neg (by omega)]
      simp
    · simp [accepted, ht]
  | succ m ih =>
    intro total world hle hm
    by_cases ht : total = frame.length
    · refine ⟨world.os, [], ?_, ?_, rfl⟩
      · intro fuel _
        unfold VideoWriter.writeLoop
        rw [if_neg (by omega)]
        simp
      · simp [accepted, ht]
    · have hlt : total < frame.length := by omega
      have hne : frame.drop total ≠ [] := by
        intro hnil
        have := congrArg List.length hnil
        simp at this
        omega
      obtain ⟨herr, h1, hn⟩ := hpipe world.os h (frame.drop total) hne
      rcases hres : env.pipeWrite world.os h (frame.drop total) with ⟨⟨n, err⟩, os⟩
      rw [hres] at herr h1 hn
      simp only at herr h1 hn
      subst herr
      have hlen : ((frame.drop total).length : Int) = frame.length - total := by
        simp
        omega
      obtain ⟨k, rfl⟩ : ∃ k : Nat, n = (k : Int) := ⟨n.toNat, by omega⟩
      obtain ⟨os', evs, hrun, hacc, hlaunch⟩ :=
        ih (total + k) (world.emit os (.pipeWrite h (frame.drop total) k)) (by omega) (by omega)
      refine ⟨os', .pipeWrite h (frame.drop total) k :: evs, ?_, ?_, ?_⟩
      · intro fuel hfuel
        obtain ⟨fuel, rfl⟩ : ∃ f, fuel = f + 1 := ⟨fuel - 1, by omega⟩
        unfold VideoWriter.writeLoop
        rw [if_pos (by omega)]
        simp only []
        rw [if_neg (by omega)]
        simp only [Int.toNat_ofNat, hres]
        rw [show ((total : Int) + (k : Int)) = ((total + k : Nat) : Int) by push_cast; rfl,
          hrun fuel (by omega)]
        simp [World.emit]
      · simp only [accepted, Int.toNat_ofNat, hacc]
        rw [← List.drop_drop, List.take_append_drop]
      · simpa [launches] using hlaunch

/-- Launch counts add up along a trace. -/
theorem launches_append (xs ys : List Event) :
    launches (xs ++ ys) = launches xs + launches ys := by
  simp [launches, List.countP_append]

/-- Whatever the pipe does, a write loop that ends normally has appended
only pipe writes to the trace: it launches nothing. -/
theorem writeLoop_launches {σ : Type} (env : Env σ) (pipe : Option PipeHandle)
    (frame : List Byte) :
    ∀ (fuel : Nat) (total : Int) (world world' : World σ),
      VideoWriter.writeLoop env pipe frame fuel total world = some (.ok world') →
      ∃ evs, world'.log = world.log ++ evs ∧ launches evs = 0 := by
  intro fuel
  induction fuel with
  | zero =>
    intro total world world' h
    unfold VideoWriter.writeLoop at h
    split at h
    · exact absurd h (by simp)
    · simp only [Option.some.injEq, Except.ok.injEq] at h
      exact ⟨[], by simp [h], rfl⟩
  | succ fuel ih =>
    intro total world world' h
    unfold VideoWriter.writeLoop at h
    split at h
    · simp only [] at h
      split at h
      · exact absurd h (by simp)
      · split at h
        · exact absurd h (by simp)
        · split at h
          · exact absurd h (by simp)
          · rename_i hp _ hx n os hres
            obtain ⟨evs, hlog, hl⟩ := ih _ _ _ h
            refine ⟨.pipeWrite hp (frame.drop total.toNat) n :: evs, ?_, ?_⟩
            · rw [hlog]
              simp [World.emit]
            · simpa [launches] using hl
    · simp only [Option.some.injEq, Except.ok.injEq] at h
      exact ⟨[], by simp [h], rfl⟩

/-- Shape of a successful `initVideoWriter`: both handles are set and the
trace grows by the registration, the pipe and one launch. -/
theorem initVideoWriter_ok {σ : Type} (env : Env σ) (writer writer' : VideoWriter)
    (world world' : World σ)
    (h : writer.initVideoWriter env world = .ok (writer', world')) :
    writer' = { writer with cmd := some (writer.command env),
                            pipe := some { id := pipesOpened (world.log ++ [.signalNotify]) } } ∧
      world'.log = world.log ++
        [.signalNotify, .stdinPipe (writer.command env), .start (writer.command env)] := by
  unfold VideoWriter.initVideoWriter at h
  simp only [] at h
  split at h
  · exact absurd h (by simp)
  · split at h
    · exact absurd h (by simp)
    · simp only [Except.ok.injEq, Prod.mk.injEq] at h
      refine ⟨h.1.symm, ?_⟩
      rw [← h.2]
      simp [World.emit, VideoWriter.cleanup]

/-- C1: against a pipe that, offered k >= 1 bytes, accepts between 1 and k
of them without error, `Write(frame)` returns normally for every fuel of at
least the frame length, and the bytes accepted by the pipe during the call,
concatenated in call order, are exactly the frame.  The writer is either
already running or its subprocess can be launched. -/
theorem Write_transmits_frame {σ : Type} (env : Env σ) (writer : VideoWriter)
    (world : World σ) (frame : List Byte)
    (hpipe : ∀ (s : σ) (p : PipeHandle) (offered : List Byte), offered ≠ [] →
      (env.pipeWrite s p offered).1.2 = none ∧
      1 ≤ (env.pipeWrite s p offered).1.1 ∧
      (env.pipeWrite s p offered).1.1 ≤ (offered.length : Int))
    (hstate : (writer.cmd ≠ none ∧ writer.pipe ≠ none) ∨
      (writer.cmd = none ∧
        ∀ (s : σ) (c : Cmd), (env.StdinPipe s c).1 = none ∧ (env.Start s c).1 = none)) :
    ∃ (writer' : VideoWriter) (world' : World σ) (evs : List Event),
      (∀ fuel, frame.length ≤ fuel →
        writer.Write env fuel world frame = some (.ok (writer', world'))) ∧
      world'.log = world.log ++ evs ∧ accepted evs = frame := by
  rcases hstate with ⟨hcmd, hp⟩ | ⟨hcmd, hlaunch⟩
  · obtain ⟨h, hh⟩ : ∃ h, writer.pipe = some h := Option.ne_none_iff_exists'.mp hp
    obtain ⟨os, evs, hrun, hacc, _⟩ :=
      writeLoop_transmits env h frame hpipe frame.length 0 world (by omega) (by omega)
    refine ⟨writer, { os := os, log := world.log ++ evs }, evs, ?_, rfl, by simpa using hacc⟩
    intro fuel hfuel
    unfold VideoWriter.Write
    simp only [hcmd, if_false, hh]
    have := hrun fuel (by omega)
    simp only [Nat.cast_zero] at this
    rw [this]
  · obtain ⟨hs1, _⟩ := hlaunch world.os (writer.command env)
    rcases hsp : env.StdinPipe world.os (writer.command env) with ⟨e1, os1⟩
    rw [hsp] at hs1
    simp only at hs1
    subst hs1
    obtain ⟨_, hs2⟩ := hlaunch os1 (writer.command env)
    rcases hst : env.Start os1 (writer.command env) with ⟨e2, os2⟩
    rw [hst] at hs2
    simp only at hs2
    subst hs2
    have hinit : writer.initVideoWriter env world =
        .ok ({ writer with cmd := some (writer.command env),
                           pipe := some { id := pipesOpened (world.log ++ [.signalNotify]) } },
             { os := os2, log := world.log ++
                [.signalNotify, .stdinPipe (writer.command env), .start (writer.command env)] }) := by
      unfold VideoWriter.initVideoWriter
      simp [VideoWriter.cleanup, World.emit, hsp, hst]
    obtain ⟨os, evs, hrun, hacc, _⟩ :=
      writeLoop_transmits env { id := pipesOpened (world.log ++ [.signalNotify]) } frame hpipe
        frame.length 0
        { os := os2, log := world.log ++
            [.signalNotify, .stdinPipe (writer.command env), .start (writer.command env)] }
        (by omega) (by omega)
    refine ⟨{ writer with cmd := some (writer.command env),
                          pipe := some { id := pipesOpened (world.log ++ [.signalNotify]) } },
      { os := os, log := (world.log ++ [.signalNotify, .stdinPipe (writer.command env),
          .start (writer.command env)]) ++ evs },
      [.signalNotify, .stdinPipe (writer.command env), .start (writer.command env)]
      ++ evs, ?_, ?_, ?_⟩
    rotate_left
    · exact List.append_assoc _ _ _
    · simpa [accepted_append, accepted] using hacc
    · intro fuel hfuel
      unfold VideoWriter.Write
      simp only [hcmd, if_true, hinit]
      have := hrun fuel (by omega)
      simp only [Nat.cast_zero] at this
      rw [this]

/-- Witness of C1: a five-byte frame through a pipe that accepts at most two
bytes per call, on a writer that has not been started. -/
theorem Write_transmits_frame_witness :
    ∃ (writer' : VideoWriter) (world' : World Nat) (evs : List Event),
      (∀ fuel, ([1, 2, 3, 4, 5] : List Byte).length ≤ fuel →
        demoWriter.Write demoEnv fuel demoWorld [1, 2, 3, 4, 5]
          = some (.ok (writer', world'))) ∧
      world'.log = demoWorld.log ++ evs ∧ accepted evs = [1, 2, 3, 4, 5] :=
  Write_transmits_frame demoEnv demoWriter demoWorld [1, 2, 3, 4, 5]
    (fun _ _ offered hne => by
      have : 0 < offered.length := List.length_pos.mpr hne
      refine ⟨rfl, ?_, ?_⟩ <;> simp only [demoEnv] <;> omega)
    (Or.inr ⟨rfl, fun _ _ => ⟨rfl, rfl⟩⟩)

/-- A `Write` on a writer whose cmd is nil, when it returns, has launched the
subprocess once and set both handles. -/
theorem Write_first {σ : Type} (env : Env σ) (fuel : Nat) (writer writer' : VideoWriter)
    (world world' : World σ) (frame : List Byte) (hcmd : writer.cmd = none)
    (h : writer.Write env fuel world frame = some (.ok (writer', world'))) :
    ∃ evs, world'.log = world.log ++ evs ∧ launches evs = 1 ∧
      writer'.pipe ≠ none ∧ writer'.cmd ≠ none := by
  unfold VideoWriter.Write at h
  simp only [hcmd, if_true] at h
  split at h
  · exact absurd h (by simp)
  · rename_i w1 world1 hinit
    obtain ⟨hw1, hlog1⟩ := initVideoWriter_ok env writer w1 world world1 hinit
    split at h
    · exact absurd h (by simp)
    · exact absurd h (by simp)
    · rename_i world2 hloop
      simp only [Option.some.injEq, Except.ok.injEq, Prod.mk.injEq] at h
      obtain ⟨evs, hlog2, hl⟩ := writeLoop_launches env _ frame fuel 0 world1 world2 hloop
      refine ⟨[.signalNotify, .stdinPipe (writer.command env), .start (writer.command env)]
        ++ evs, ?_, ?_, ?_, ?_⟩
      · rw [← h.2, hlog2, hlog1, List.append_assoc]
      · rw [launches_append, hl]
        rfl
      · rw [← h.1, hw1]
        simp
      · rw [← h.1, hw1]
        simp

/-- A `Write` on a writer whose cmd is set, when it returns, has launched
nothing and left the writer as it was. -/
theorem Write_later {σ : Type} (env : Env σ) (fuel : Nat) (writer writer' : VideoWriter)
    (world world' : World σ) (frame : List Byte) (hcmd : writer.cmd ≠ none)
    (h : writer.Write env fuel world frame = some (.ok (writer', world'))) :
    ∃ evs, world'.log = world.log ++ evs ∧ launches evs = 0 ∧ writer' = writer := by
  unfold VideoWriter.Write at h
  simp only [hcmd, if_false] at h
  split at h
  · exact absurd h (by simp)
  · exact absurd h (by simp)
  · rename_i world2 hloop
    simp only [Option.some.injEq, Except.ok.injEq, Prod.mk.injEq] at h
    obtain ⟨evs, hlog2, hl⟩ := writeLoop_launches env _ frame fuel 0 world world2 hloop
    exact ⟨evs, by rw [← h.2, hlog2], hl, h.1.symm⟩

/-- `Close` launches nothing and leaves the writer as it was. -/
theorem Close_launches {σ : Type} (env : Env σ) (writer : VideoWriter) (world : World σ) :
    ∃ evs, (writer.Close env world).2.log = world.log ++ evs ∧ launches evs = 0 ∧
      (writer.Close env world).1 = writer := by
  unfold VideoWriter.Close
  rcases writer.pipe with _ | h <;> rcases writer.cmd with _ | c
  · exact ⟨[], by simp, rfl, rfl⟩
  · exact ⟨[.wait c], by simp [World.emit], rfl, rfl⟩
  · exact ⟨[.pipeClose h], by simp [World.emit], rfl, rfl⟩
  · exact ⟨[.pipeClose h, .wait c], by simp [World.emit], rfl, rfl⟩

/-- Once cmd is set, no sequence of calls launches again or changes the
writer. -/
theorem run_started {σ : Type} (env : Env σ) (fuel : Nat) :
    ∀ (calls : List Call) (writer writer' : VideoWriter) (world world' : World σ),
      writer.cmd ≠ none →
      VideoWriter.run env fuel calls writer world = some (.ok (writer', world')) →
      ∃ evs, world'.log = world.log ++ evs ∧ launches evs = 0 ∧ writer' = writer := by
  intro calls
  induction calls with
  | nil =>
    intro writer writer' world world' _ h
    simp only [VideoWriter.run, Option.some.injEq, Except.ok.injEq, Prod.mk.injEq] at h
    exact ⟨[], by simp [h.2], rfl, h.1.symm⟩
  | cons c rest ih =>
    intro writer writer' world world' hcmd h
    cases c with
    | write frame =>
      simp only [VideoWriter.run] at h
      split at h
      · rename_i w1 world1 hw
        obtain ⟨evs1, hlog1, hl1, hw1⟩ := Write_later env fuel writer w1 world world1 frame hcmd hw
        subst hw1
        obtain ⟨evs2, hlog2, hl2, hw2⟩ := ih _ _ _ _ hcmd h
        exact ⟨evs1 ++ evs2, by rw [hlog2, hlog1, List.append_assoc],
          by rw [launches_append, hl1, hl2], hw2⟩
      · rename_i hother
        exact absurd h (hother writer' world')
    | close =>
      simp only [VideoWriter.run] at h
      obtain ⟨evs1, hlog1, hl1, hw1⟩ := Close_launches env writer world
      rw [hw1] at h
      obtain ⟨evs2, hlog2, hl2, hw2⟩ := ih _ _ _ _ hcmd h
      exact ⟨evs1 ++ evs2, by rw [hlog2, hlog1, List.append_assoc],
        by rw [launches_append, hl1, hl2], hw2⟩

/-- Before any `Write`, `Close` calls on an unstarted writer change nothing. -/
theorem run_closes {σ : Type} (env : Env σ) (fuel : Nat) (writer : VideoWriter)
    (world : World σ) (hp : writer.pipe = none) (hc : writer.cmd = none) :
    ∀ (pre rest : List Call), pre.any Call.isWrite = false →
      VideoWriter.run env fuel (pre ++ rest) writer world
        = VideoWriter.run env fuel rest writer world := by
  intro pre
  induction pre with
  | nil => intro rest _; rfl
  | cons c pre ih =>
    intro rest hpre
    cases c with
    | write frame => simp [Call.isWrite] at hpre
    | close =>
      have hclose : writer.Close env world = (writer, world) := by
        unfold VideoWriter.Close
        rw [hp, hc]
      simp only [List.any_cons, Call.isWrite, Bool.false_or] at hpre
      simp only [List.cons_append, VideoWriter.run, hclose]
      exact ih rest hpre

/-- A call sequence either has no `Write`, or splits at its first `Write`. -/
theorem split_first_write (calls : List Call) :
    calls.any Call.isWrite = false ∨
      ∃ pre frame rest, calls = pre ++ Call.write frame :: rest ∧
        pre.any Call.isWrite = false := by
  induction calls with
  | nil => exact Or.inl rfl
  | cons c rest ih =>
    cases c with
    | write frame => exact Or.inr ⟨[], frame, rest, rfl, rfl⟩
    | close =>
      rcases ih with h | ⟨pre, frame, rest', hsplit, hpre⟩
      · exact Or.inl (by simpa [Call.isWrite] using h)
      · exact Or.inr ⟨.close :: pre, frame, rest', by rw [hsplit]; rfl,
          by simpa [Call.isWrite] using hpre⟩

/-- C10: a writer returned by `NewVideoWriter` has pipe and cmd nil.  After
any sequence of `Write` and `Close` calls that did not panic, pipe is nil
exactly when cmd is nil, and either no `Write` was made and writer and world
are untouched, or the sequence splits at its first `Write`: the calls before
it changed nothing, that `Write` launched the subprocess once and set both
handles, and the calls after it launched nothing and kept the handles, so
the whole sequence launched exactly once. -/
theorem lazy_single_launch {σ : Type} (env : Env σ) (fuel : Nat) (filename : String)
    (video video' : Video) (writer0 : VideoWriter) (calls : List Call)
    (world0 : World σ) (writer : VideoWriter) (world : World σ)
    (h0 : NewVideoWriter filename video = .ok (writer0, video'))
    (hrun : VideoWriter.run env fuel calls writer0 world0 = some (.ok (writer, world))) :
    (writer0.pipe = none ∧ writer0.cmd = none) ∧
    (writer.pipe = none ↔ writer.cmd = none) ∧
    ((calls.any Call.isWrite = false ∧ writer = writer0 ∧ world = world0) ∨
     (∃ pre frame rest writer1 world1 evs1 evs2,
        calls = pre ++ Call.write frame :: rest ∧ pre.any Call.isWrite = false ∧
        VideoWriter.run env fuel pre writer0 world0 = some (.ok (writer0, world0)) ∧
        writer0.Write env fuel world0 frame = some (.ok (writer1, world1)) ∧
        world1.log = world0.log ++ evs1 ∧ launches evs1 = 1 ∧
        writer1.pipe ≠ none ∧ writer1.cmd ≠ none ∧
        VideoWriter.run env fuel rest writer1 world1 = some (.ok (writer, world)) ∧
        world.log = world1.log ++ evs2 ∧ launches evs2 = 0 ∧ writer = writer1 ∧
        launches (evs1 ++ evs2) = 1)) := by
  have hw : writer0.pipe = none ∧ writer0.cmd = none := by
    unfold NewVideoWriter at h0
    split at h0
    · exact absurd h0 (by simp)
    · simp only [Except.ok.injEq, Prod.mk.injEq] at h0
      rw [← h0.1]
      exact ⟨rfl, rfl⟩
  rcases split_first_write calls with hnone | ⟨pre, frame, rest, hsplit, hpre⟩
  · have hrun' := run_closes env fuel writer0 world0 hw.1 hw.2 calls [] hnone
    rw [List.append_nil, hrun] at hrun'
    simp only [VideoWriter.run, Option.some.injEq, Except.ok.injEq, Prod.mk.injEq] at hrun'
    obtain ⟨h1, h2⟩ := hrun'
    subst h1 h2
    exact ⟨hw, by simp [hw.1, hw.2], Or.inl ⟨hnone, rfl, rfl⟩⟩
  · have hpre0 := run_closes env fuel writer0 world0 hw.1 hw.2 pre [] hpre
    rw [List.append_nil] at hpre0
    have hrun' := run_closes env fuel writer0 world0 hw.1 hw.2 pre (.write frame :: rest) hpre
    rw [← hsplit, hrun] at hrun'
    simp only [VideoWriter.run] at hrun'
    split at hrun'
    · rename_i writer1 world1 hfirst
      obtain ⟨evs1, hlog1, hl1, hp1, hc1⟩ :=
        Write_first env fuel writer0 writer1 world0 world1 frame hw.2 hfirst
      obtain ⟨evs2, hlog2, hl2, hw2⟩ :=
        run_started env fuel rest writer1 writer world1 world hc1 hrun'.symm
      refine ⟨hw, ?_, Or.inr ⟨pre, frame, rest, writer1, world1, evs1, evs2, hsplit, hpre,
        hpre0, hfirst, hlog1, hl1, hp1, hc1, hrun'.symm, hlog2, hl2, hw2, ?_⟩⟩
      · rw [hw2]
        simp [hp1, hc1]
      · rw [launches_append, hl1, hl2]
    · rename_i hother
      exact absurd hrun'.symm (hother writer world)

/-- Witness of C10: a `Close`, two frames and a `Close` on the default
640x480 writer, through a pipe that accepts at most two bytes per call. -/
theorem lazy_single_launch_witness :
    (demoWriter.pipe = none ∧ demoWriter.cmd = none) ∧
    (demoWriterRunning.pipe = none ↔ demoWriterRunning.cmd = none) ∧
    ((demoCalls.any Call.isWrite = false ∧ demoWriterRunning = demoWriter ∧
        demoWorldClosed = demoWorld) ∨
     (∃ pre frame rest writer1 world1 evs1 evs2,
        demoCalls = pre ++ Call.write frame :: rest ∧ pre.any Call.isWrite = false ∧
        VideoWriter.run demoEnv 5 pre demoWriter demoWorld = some (.ok (demoWriter, demoWorld)) ∧
        demoWriter.Write demoEnv 5 demoWorld frame = some (.ok (writer1, world1)) ∧
        world1.log = demoWorld.log ++ evs1 ∧ launches evs1 = 1 ∧
        writer1.pipe ≠ none ∧ writer1.cmd ≠ none ∧
        VideoWriter.run demoEnv 5 rest writer1 world1
          = some (.ok (demoWriterRunning, demoWorldClosed)) ∧
        demoWorldClosed.log = world1.log ++ evs2 ∧ launches evs2 = 0 ∧
        demoWriterRunning = writer1 ∧
        launches (evs1 ++ evs2) = 1)) :=
  lazy_single_launch demoEnv 5 "out.mp4" demoVideo
    { demoVideo with channels := 3, fps := Float64.c25, codec := "mpeg4", pix_fmt := "rgb24" }
    demoWriter demoCalls demoWorld demoWriterRunning demoWorldClosed rfl rfl

/-- Invariant rule for a counting loop: a property indexed by the counter
that every iteration below the bound carries one step further holds at the
bound when the loop ends, and the loop does end normally. -/
theorem forLoop_inv {α : Type} (body : Nat → α → Except Panic α) (Q : Nat → α → Prop)
    (n : Nat)
    (hstep : ∀ i s, i < n → Q i s → ∃ s', body i s = .ok s' ∧ Q (i + 1) s') :
    ∀ (k i : Nat) (s : α), i + k = n → Q i s →
      ∃ s', forLoop body k i s = .ok s' ∧ Q n s' := by
  intro k
  induction k with
  | zero =>
    intro i s hik hq
    have : i = n := by omega
    subst this
    exact ⟨s, rfl, hq⟩
  | succ k ih =>
    intro i s hik hq
    obtain ⟨s1, hb, hq1⟩ := hstep i s (by omega) hq
    obtain ⟨s2, hl, hq2⟩ := ih (i + 1) s1 (by omega) hq1
    exact ⟨s2, by simp only [forLoop, hb, hl], hq2⟩

/-- Invariant rule for the row-major double loop: a property indexed by the
number of pixels already visited. -/
theorem rowMajor_inv {α : Type} (body : Nat → Nat → α → Except Panic α)
    (P : Nat → α → Prop) (W H : Nat)
    (hstep : ∀ x y s, x < W → y < H → P (y * W + x) s →
      ∃ s', body y x s = .ok s' ∧ P (y * W + x + 1) s')
    (s : α) (h0 : P 0 s) :
    ∃ s', forLoop (fun y st => forLoop (fun x st => body y x st) W 0 st) H 0 s = .ok s' ∧
      P (H * W) s' := by
  refine forLoop_inv _ (fun y st => P (y * W) st) H ?_ H 0 s (by omega) (by simpa using h0)
  intro y st hy hP
  have hrow := forLoop_inv (fun x st => body y x st) (fun x st => P (y * W + x) st) W
    (fun x st hx hq => hstep x y st hx hy hq) W 0 st (by omega) (by simpa using hP)
  obtain ⟨s', hl, hq⟩ := hrow
  exact ⟨s', hl, by simpa [Nat.succ_mul] using hq⟩

/-- Column of the pixel with row-major number `y * W + x`. -/
theorem rowMajor_mod (W x y : Nat) (hx : x < W) : (y * W + x) % W = x := by
  rw [Nat.add_comm, Nat.add_mul_mod_self_right, Nat.mod_eq_of_lt hx]

/-- Row of the pixel with row-major number `y * W + x`. -/
theorem rowMajor_div (W x y : Nat) (hx : x < W) : (y * W + x) / W = y := by
  have hW : 0 < W := by omega
  rw [Nat.add_comm, Nat.add_mul_div_right _ _ hW, Nat.div_eq_of_lt hx, Nat.zero_add]

/-- Pixels inside a `W` by `H` image have row-major numbers below `H * W`. -/
theorem rowMajor_lt (W H x y : Nat) (hx : x < W) (hy : y < H) : y * W + x < H * W := by
  have : (y + 1) * W ≤ H * W := Nat.mul_le_mul_right W hy
  rw [Nat.succ_mul] at this
  omega

/-- An assignment inside the buffer does not panic. -/
theorem setByte_ok (data : List Byte) (index : Nat) (v : Byte) (h : index < data.length) :
    setByte data index v = .ok (data.set index v) := by
  unfold setByte
  rw [if_pos h]

/-- One iteration of the inner loop of `Read` extends by one pixel the part
of the buffer that holds the converted channels. -/
theorem Read_pixel_step (image : image.Image) (W N x y : Nat) (hx : x < W)
    (hk : y * W + x < N) (st : List Byte × Nat)
    (hinv : Read.filled image W N (y * W + x) st) :
    ∃ st', Read.pixel image y x st = .ok st' ∧ Read.filled image W N (y * W + x + 1) st' := by
  obtain ⟨data, index⟩ := st
  obtain ⟨hidx, hlen, hold⟩ := hinv
  simp only at hidx hlen hold
  subst hidx
  refine ⟨(((data.set (3 * (y * W + x)) (byte ((image.At x y).r / 256))).set
      (3 * (y * W + x) + 1) (byte ((image.At x y).g / 256))).set
      (3 * (y * W + x) + 2) (byte ((image.At x y).b / 256)), 3 * (y * W + x) + 3), ?_, ?_⟩
  · simp only [Read.pixel]
    rw [setByte_ok _ _ _ (by omega)]
    simp only []
    rw [setByte_ok _ _ _ (by rw [List.length_set]; omega)]
    simp only []
    rw [setByte_ok _ _ _ (by rw [List.length_set, List.length_set]; omega)]
  · refine ⟨by simp only []; omega, by simp only [List.length_set]; exact hlen, ?_⟩
    intro j hj
    simp only [List.getElem?_set, List.length_set]
    by_cases hjk : j = y * W + x
    · subst hjk
      rw [rowMajor_mod W x y hx, rowMajor_div W x y hx]
      refine ⟨?_, ?_, ?_⟩
      · rw [if_neg (by omega), if_neg (by omega), if_pos rfl, if_pos (by omega)]
      · rw [if_neg (by omega), if_pos rfl, if_pos (by omega)]
      · rw [if_pos rfl, if_pos (by omega)]
    · obtain ⟨h0, h1, h2⟩ := hold j (by omega)
      refine ⟨?_, ?_, ?_⟩
      · rw [if_neg (by omega), if_neg (by omega), if_neg (by omega), h0]
      · rw [if_neg (by omega), if_neg (by omega), if_neg (by omega), h1]
      · rw [if_neg (by omega), if_neg (by omega), if_neg (by omega), h2]

/-- The flattening loops of `Read` on an image whose bounds end at `(W, H)`:
they end normally with a buffer of `3 * (H * W)` bytes in which every pixel
holds its converted channels. -/
theorem Read_flatten_filled (image : image.Image) (W H : Nat)
    (hX : image.Bounds.MaxX = (W : Int)) (hY : image.Bounds.MaxY = (H : Int)) :
    ∃ data index, Read.flatten image = .ok ((W : Int), (H : Int), data) ∧
      Read.filled image W (H * W) (H * W) (data, index) := by
  have hn : ((H : Int) * (W : Int) * 3).toNat = 3 * (H * W) := by
    rw [show ((H : Int) * (W : Int) * 3) = ((3 * (H * W) : Nat) : Int) by push_cast; ring]
    exact Int.toNat_ofNat _
  have hloop := rowMajor_inv (fun h w st => Read.pixel image h w st)
    (fun k st => Read.filled image W (H * W) k st) W H
    (fun x y st hx hy hP => Read_pixel_step image W (H * W) x y hx (rowMajor_lt W H x y hx hy) st hP)
    (List.replicate (3 * (H * W)) (0 : Byte), 0)
    ⟨rfl, by simp, fun j hj => absurd hj (Nat.not_lt_zero j)⟩
  obtain ⟨⟨data, index⟩, hrun, hfilled⟩ := hloop
  refine ⟨data, index, ?_, hfilled⟩
  unfold Read.flatten
  simp only [hX, hY]
  rw [if_neg (not_lt.mpr (by positivity)), hn]
  simp only [Int.toNat_ofNat]
  rw [hrun]

/-- C3: for a decoded image of width `W` and height `H` (bounds from the
origin to `(W, H)`, 16-bit channel values), `Read` returns `(W, H, data)`
with `data` of length `W * H * 3` and, for every pixel `(x, y)`, the bytes at
`3 * (y * W + x)`, `+ 1`, `+ 2` equal to its R, G, B channel values divided
by 256. -/
theorem Read_layout (env : Codecs) (fs : FileSystem) (filename : String)
    (bytes : List Byte) (image : image.Image) (W H : Nat)
    (hopen : fs filename = some bytes) (hdec : env.Decode bytes = .ok image)
    (hb : image.Bounds = { MinX := 0, MinY := 0, MaxX := W, MaxY := H })
    (h16 : ∀ x y : Nat, x < W → y < H →
      (image.At x y).r < 65536 ∧ (image.At x y).g < 65536 ∧ (image.At x y).b < 65536) :
    ∃ data : List Byte, Read env fs filename = .ok ((W : Int), (H : Int), data) ∧
      data.length = W * H * 3 ∧
      ∀ x y : Nat, x < W → y < H →
        (data[3 * (y * W + x)]?).map Fin.val = some ((image.At x y).r / 256) ∧
        (data[3 * (y * W + x) + 1]?).map Fin.val = some ((image.At x y).g / 256) ∧
        (data[3 * (y * W + x) + 2]?).map Fin.val = some ((image.At x y).b / 256) := by
  obtain ⟨data, index, hflat, _, hlen, hpix⟩ :=
    Read_flatten_filled image W H (by rw [hb]) (by rw [hb])
  refine ⟨data, ?_, ?_, ?_⟩
  · unfold Read os.Open
    simp only [hopen, hdec, hflat]
  · simp only at hlen
    rw [hlen]
    ring
  · intro x y hx hy
    obtain ⟨hr, hg, hbl⟩ := hpix (y * W + x) (rowMajor_lt W H x y hx hy)
    rw [rowMajor_mod W x y hx, rowMajor_div W x y hx] at hr hg hbl
    simp only at hr hg hbl
    obtain ⟨h1, h2, h3⟩ := h16 x y hx hy
    rw [hr, hg, hbl]
    simp only [Option.map_some', byte, Option.some.injEq]
    refine ⟨?_, ?_, ?_⟩ <;> omega

/-- A pixel number determines its column and row. -/
theorem rowMajor_unique (W j x y : Nat) (hc : ((j % W : Nat) : Int) = (x : Int))
    (hr : ((j / W : Nat) : Int) = (y : Int)) : j = y * W + x := by
  have h1 : j % W = x := by exact_mod_cast hc
  have h2 : j / W = y := by exact_mod_cast hr
  rw [← h1, ← h2, Nat.mul_comm]
  exact (Nat.div_add_mod j W).symm

/-- Points with coordinates below `(W, H)` lie in the rectangle from the
origin to `(W, H)`. -/
theorem contains_origin (W H x y : Nat) (hx : x < W) (hy : y < H) :
    image.Rectangle.contains { MinX := 0, MinY := 0, MaxX := W, MaxY := H } (x : Int) (y : Int)
      = true := by
  simp only [image.Rectangle.contains, Bool.and_eq_true, decide_eq_true_eq]
  omega

/-- One iteration of the inner loop of `Write` stores one more pixel from
the next three bytes of the buffer. -/
theorem Write_pixel_step (data : List Byte) (W H N x y : Nat) (hx : x < W) (hy : y < H)
    (hk : y * W + x < N) (hlen : 3 * N ≤ data.length) (st : image.RGBA × Nat)
    (hinv : Write.filled data W { MinX := 0, MinY := 0, MaxX := W, MaxY := H } (y * W + x) st) :
    ∃ st', Write.pixel data y x st = .ok st' ∧
      Write.filled data W { MinX := 0, MinY := 0, MaxX := W, MaxY := H } (y * W + x + 1) st' := by
  obtain ⟨img, index⟩ := st
  obtain ⟨hidx, hrect, hold⟩ := hinv
  simp only at hidx hrect hold
  subst hidx
  have h0 : 3 * (y * W + x) < data.length := by omega
  have h1 : 3 * (y * W + x) + 1 < data.length := by omega
  have h2 : 3 * (y * W + x) + 2 < data.length := by omega
  have hin : img.Rect.contains (x : Int) (y : Int) = true := by
    rw [hrect]
    exact contains_origin W H x y hx hy
  refine ⟨(img.Set x y (color.RGBA.mk data[3 * (y * W + x)] data[3 * (y * W + x) + 1]
      data[3 * (y * W + x) + 2] 255), 3 * (y * W + x) + 3), ?_, ?_⟩
  · simp only [Write.pixel, List.getElem?_eq_getElem h0, List.getElem?_eq_getElem h1,
      List.getElem?_eq_getElem h2]
  · refine ⟨by simp only []; omega, ?_, ?_⟩
    · simp only [image.RGBA.Set, hin, if_true]
      exact hrect
    · intro j hj
      simp only [image.RGBA.Set, hin, if_true]
      by_cases hjk : j = y * W + x
      · subst hjk
        rw [rowMajor_mod W x y hx, rowMajor_div W x y hx]
        simp only [and_self, if_true]
        exact ⟨List.getElem?_eq_getElem h0, List.getElem?_eq_getElem h1,
          List.getElem?_eq_getElem h2, trivial⟩
      · rw [if_neg (fun h => hjk (rowMajor_unique W j x y h.1 h.2))]
        exact hold j (by omega)

/-- The loops of `Write` on a buffer of at least `3 * (H * W)` bytes end
normally with an image on the rectangle from the origin to `(W, H)` whose
pixels hold the bytes of the buffer, three per pixel in row-major order. -/
theorem Write_build_filled (data : List Byte) (W H : Nat) (hlen : 3 * (H * W) ≤ data.length) :
    ∃ img index, Write.build (W : Int) (H : Int) data = .ok img ∧
      Write.filled data W { MinX := 0, MinY := 0, MaxX := W, MaxY := H } (H * W) (img, index) := by
  have hrect : image.Rect 0 0 (W : Int) (H : Int)
      = { MinX := 0, MinY := 0, MaxX := W, MaxY := H } := by
    unfold image.Rect
    rw [if_neg (by omega), if_neg (by omega), if_neg (by omega), if_neg (by omega)]
  have hloop := rowMajor_inv (fun h w st => Write.pixel data h w st)
    (fun k st => Write.filled data W { MinX := 0, MinY := 0, MaxX := W, MaxY := H } k st) W H
    (fun x y st hx hy hP =>
      Write_pixel_step data W H (H * W) x y hx hy (rowMajor_lt W H x y hx hy) hlen st hP)
    (image.NewRGBA (image.Rect 0 0 (W : Int) (H : Int)), 0)
    ⟨rfl, by rw [hrect]; rfl, fun j hj => absurd hj (Nat.not_lt_zero j)⟩
  obtain ⟨⟨img, index⟩, hrun, hfilled⟩ := hloop
  refine ⟨img, index, ?_, hfilled⟩
  unfold Write.build
  simp only [Int.toNat_ofNat]
  rw [hrun]

/-- The 16-bit value `c | c << 8` of an 8-bit channel, divided by 256 and
truncated to a byte, is the channel. -/
theorem byte_RGBA (c : Byte) : byte ((c.val ||| (c.val <<< 8)) / 256) = c := by
  have hc : c.val < 256 := c.isLt
  have hor : c.val ||| (c.val <<< 8) = 256 * c.val + c.val := by
    have h := Nat.mul_add_lt_is_or (show c.val < 2 ^ 8 from hc) c.val
    rw [Nat.shiftLeft_eq, Nat.lor_comm, Nat.mul_comm]
    exact h.symm
  have hdiv : (256 * c.val + c.val) / 256 = c.val := by
    rw [Nat.mul_add_div (by decide), Nat.div_eq_of_lt hc, Nat.add_zero]
  apply Fin.ext
  simp only [byte, hor, hdiv]
  exact Nat.mod_eq_of_lt hc

/-- Flattening the image built by `Write` from a buffer of `W * H * 3` bytes
gives back the dimensions and the buffer. -/
theorem flatten_build (data : List Byte) (W H : Nat) (hlen : data.length = 3 * (H * W))
    (hW : 0 < W) :
    ∃ img, Write.build (W : Int) (H : Int) data = .ok img ∧
      Read.flatten img.toImage = .ok ((W : Int), (H : Int), data) := by
  obtain ⟨img, _, hbuild, _, hrect, hpix⟩ := Write_build_filled data W H (by omega)
  simp only at hrect hpix
  obtain ⟨data', _, hflat, _, hlen', hpix'⟩ :=
    Read_flatten_filled img.toImage W H (by simp [image.RGBA.toImage, hrect])
      (by simp [image.RGBA.toImage, hrect])
  simp only at hlen' hpix'
  refine ⟨img, hbuild, ?_⟩
  rw [hflat]
  have hpixel : ∀ j, j < H * W →
      data'[3 * j]? = data[3 * j]? ∧ data'[3 * j + 1]? = data[3 * j + 1]? ∧
        data'[3 * j + 2]? = data[3 * j + 2]? := by
    intro j hj
    obtain ⟨r0, g0, b0, _⟩ := hpix j hj
    obtain ⟨r1, g1, b1⟩ := hpix' j hj
    have hcol : j % W < W := Nat.mod_lt j hW
    have hrow : j / W < H := by
      rw [Nat.div_lt_iff_lt_mul hW]
      exact hj
    have hin : img.Rect.contains ((j % W : Nat) : Int) ((j / W : Nat) : Int) = true := by
      rw [hrect]
      exact contains_origin W H (j % W) (j / W) hcol hrow
    simp only [image.RGBA.toImage, image.RGBA.RGBAAt, hin, if_true, color.RGBA.RGBA,
      byte_RGBA] at r1 g1 b1
    exact ⟨r1.trans r0.symm, g1.trans g0.symm, b1.trans b0.symm⟩
  have hdata : data' = data := by
    apply List.ext_getElem?
    intro i
    by_cases hi : i < 3 * (H * W)
    · obtain ⟨h0, h1, h2⟩ := hpixel (i / 3) (by omega)
      have hcases : i = 3 * (i / 3) ∨ i = 3 * (i / 3) + 1 ∨ i = 3 * (i / 3) + 2 := by omega
      rcases hcases with h | h | h
      · rw [h]; exact h0
      · rw [h]; exact h1
      · rw [h]; exact h2
    · rw [List.getElem?_eq_none (by omega), List.getElem?_eq_none (by omega)]
  rw [hdata]

/-- C2: for width and height at least 1 and a buffer of `width * height * 3`
bytes, `Write` to a name ending in `.png` followed by `Read` of that name
returns the dimensions and the buffer unchanged, when the file can be
created and the PNG encoder and the decoder are lossless on the image
`Write` built; and flattening that image gives back dimensions and buffer. -/
theorem Write_Read_png (env : Codecs) (fs : FileSystem) (filename : String)
    (width height : Int) (data : List Byte)
    (hw : 1 ≤ width) (hh : 1 ≤ height)
    (hlen : (data.length : Int) = width * height * 3)
    (hpng : strings.HasSuffix filename ".png" = true)
    (hcreate : env.Create fs filename = none)
    (hcodec : ∀ img, Write.build width height data = .ok img →
      ∃ bytes, env.pngEncode img = .ok bytes ∧ env.Decode bytes = .ok img.toImage) :
    (∃ fs', Write env fs filename width height data = .ok fs' ∧
      Read env fs' filename = .ok (width, height, data)) ∧
    (∃ img, Write.build width height data = .ok img ∧
      Read.flatten img.toImage = .ok (width, height, data)) := by
  obtain ⟨W, rfl⟩ := Int.eq_ofNat_of_zero_le (show 0 ≤ width by omega)
  obtain ⟨H, rfl⟩ := Int.eq_ofNat_of_zero_le (show 0 ≤ height by omega)
  have hlen' : data.length = 3 * (H * W) := by
    have : ((data.length : Nat) : Int) = ((3 * (H * W) : Nat) : Int) := by
      rw [hlen]; push_cast; ring
    exact_mod_cast this
  obtain ⟨img, hbuild, hflat⟩ := flatten_build data W H hlen' (by omega)
  obtain ⟨bytes, henc, hdec⟩ := hcodec img hbuild
  refine ⟨⟨Function.update (Function.update fs filename (some [])) filename (some bytes), ?_, ?_⟩,
    ⟨img, hbuild, hflat⟩⟩
  · unfold Write
    simp only [hcreate, hbuild, hpng, if_true, henc]
  · unfold Read os.Open
    simp only [Function.update_same, hdec, hflat]

/-- Witness of C2: a 2 by 1 buffer written to `a.png` and read back. -/
theorem Write_Read_png_witness :
    (∃ fs', Write demoCodecs demoFiles "a.png" 2 1 demoData = .ok fs' ∧
      Read demoCodecs fs' "a.png" = .ok (2, 1, demoData)) ∧
    (∃ img, Write.build 2 1 demoData = .ok img ∧
      Read.flatten img.toImage = .ok (2, 1, demoData)) :=
  Write_Read_png demoCodecs demoFiles "a.png" 2 1 demoData (by decide) (by decide)
    (by decide) (by decide) rfl
    (fun img h => ⟨[137, 80, 78, 71], rfl, by
      unfold demoCodecs
      simp only []
      rw [if_pos trivial, h]⟩)

/-- Witness of C3: a decoded 2 by 1 image. -/
theorem Read_layout_witness :
    ∃ data : List Byte, Read demoDecoder demoDisk "in.jpg" = .ok (((2 : Nat) : Int), ((1 : Nat) : Int), data) ∧
      data.length = 2 * 1 * 3 ∧
      ∀ x y : Nat, x < 2 → y < 1 →
        (data[3 * (y * 2 + x)]?).map Fin.val = some ((demoImage.At x y).r / 256) ∧
        (data[3 * (y * 2 + x) + 1]?).map Fin.val = some ((demoImage.At x y).g / 256) ∧
        (data[3 * (y * 2 + x) + 2]?).map Fin.val = some ((demoImage.At x y).b / 256) :=
  Read_layout demoDecoder demoDisk "in.jpg" [255, 216] demoImage 2 1 rfl rfl rfl
    (fun x y _ _ => by
      simp only [demoImage]
      split <;> decide)

end Vidio
